import Mathlib

/-!
Verification development for the projectx market-data core.

Two components are embedded, following the Go source:
- `SignalRClient`: the subscription / connection lifecycle manager
  (subscription set, connection flag, Subscribe / Unsubscribe / Stop /
  OnConnected).  The network is modelled by an oracle
  `env : String → String → Option String` mapping a hub method name and a
  contract id to the error (if any) returned by that `Send` round trip.
- `MarketDataManager`: the per-instrument OHLCV bar aggregator
  (OnQuote / OnTrade / OnDepth, bar initialization and close).  The Go
  callback is modelled by returning the list of bars emitted by a call;
  `time.Now()` is modelled by an explicit `now : Int` argument (the time
  unit is irrelevant; concrete examples use seconds).

Prices (Go float64) are modelled as rationals; bar timestamps and
durations as integers.  Untyped Go payloads (`map[string]interface{}`)
are modelled as association lists of `JsonVal`.
-/

namespace ProjectX

/-- Go `time.Time.Truncate`: rounds `t` down to a multiple of `d`
(integer division on `Int` is floor division, as in Go's `time` package);
for `d ≤ 0` the time is returned unchanged. -/
def timeTruncate (t d : Int) : Int :=
  if d ≤ 0 then t else d * (t / d)

/-- Go conversion `int(size)` from float to int: truncation toward zero. -/
def ratTrunc (q : ℚ) : Int :=
  Int.tdiv q.num q.den

/-- A value stored in an untyped Go payload map. -/
inductive JsonVal where
  | num (val : ℚ)
  | str (val : String)
  | other
deriving DecidableEq

/-- A Go `map[string]interface{}` payload, as an association list. -/
abbrev Payload := List (String × JsonVal)

def bidKey : String := "bid"

def askKey : String := "ask"

def priceKey : String := "price"

def sizeKey : String := "size"

/-- Go `v, ok := data[key].(float64)`: the lookup succeeds only when the
key is present and holds a numeric value. -/
def getFloat (data : Payload) (key : String) : Option ℚ :=
  match data.lookup key with
  | some (JsonVal.num v) => some v
  | _ => none

/-- The `HistoryBar` struct from models.go (`Time` is the bar's period
start). -/
structure HistoryBar where
  Time : Int
  Open : ℚ
  High : ℚ
  Low : ℚ
  Close : ℚ
  Vol : Int
deriving DecidableEq

/-- The mutable state of a `MarketDataManager` (the callback is modelled
by the emission lists returned by the handler functions). -/
structure MarketDataManager where
  currentBar : Option HistoryBar
  lastTradeTime : Int
  barPeriod : Int
  contractID : String
deriving DecidableEq

/-- `NewMarketDataManager`: fresh aggregator, bar period in minutes
(60 time units per minute). -/
def NewMarketDataManager (contractID : String) (barPeriodMinutes : Int) :
    MarketDataManager :=
  { currentBar := none
    lastTradeTime := 0
    barPeriod := barPeriodMinutes * 60
    contractID := contractID }

/-- `initializeNewBar`: opens a bar at the truncated time, seeded with
`price` and zero volume. -/
def initNewBar (m : MarketDataManager) (t : Int) (price : ℚ) :
    MarketDataManager :=
  { m with
    currentBar := some
      { Time := timeTruncate t m.barPeriod
        Open := price
        High := price
        Low := price
        Close := price
        Vol := 0 } }

/-- `closeCurrentBar`: the bars handed to the callback (one if a current
bar exists, none otherwise). -/
def closeCurrentBar (m : MarketDataManager) : List HistoryBar :=
  match m.currentBar with
  | some bar => [bar]
  | none => []

/-- `MarketDataManager.OnQuote`, returning the updated state and the
bars emitted during the call. -/
def OnQuote (m : MarketDataManager) (contractID : String) (data : Payload)
    (now : Int) : MarketDataManager × List HistoryBar :=
  if contractID ≠ m.contractID then (m, [])
  else
    match getFloat data bidKey, getFloat data askKey with
    | some bid, some ask =>
      match m.currentBar with
      | none => (initNewBar m now ((bid + ask) / 2), [])
      | some bar =>
        let price := (bid + ask) / 2
        let bar1 : HistoryBar :=
          { bar with
            High := if price > bar.High then price else bar.High
            Low := if price < bar.Low then price else bar.Low
            Close := price }
        let m1 := { m with currentBar := some bar1 }
        if now - bar1.Time ≥ m.barPeriod then
          (initNewBar m1 now price, closeCurrentBar m1)
        else
          (m1, [])
    | _, _ => (m, [])

/-- `MarketDataManager.OnTrade`, returning the updated state and the
bars emitted during the call. -/
def OnTrade (m : MarketDataManager) (contractID : String) (data : Payload)
    (now : Int) : MarketDataManager × List HistoryBar :=
  if contractID ≠ m.contractID then (m, [])
  else
    match getFloat data priceKey, getFloat data sizeKey with
    | some price, some size =>
      let m0 := { m with lastTradeTime := now }
      match m0.currentBar with
      | none => (initNewBar m0 now price, [])
      | some bar =>
        let bar1 : HistoryBar :=
          { bar with
            High := if price > bar.High then price else bar.High
            Low := if price < bar.Low then price else bar.Low
            Close := price
            Vol := bar.Vol + ratTrunc size }
        let m1 := { m0 with currentBar := some bar1 }
        if now - bar1.Time ≥ m0.barPeriod then
          (initNewBar m1 now price, closeCurrentBar m1)
        else
          (m1, [])
    | _, _ => (m, [])

/-- `MarketDataManager.OnDepth`: depth data is not used for bar
construction. -/
def OnDepth (m : MarketDataManager) (contractID : String) (data : Payload) :
    MarketDataManager × List HistoryBar :=
  (m, [])

/-- One inbound push event, tagged with its wall-clock arrival time. -/
inductive TickEvent where
  | quote (contractID : String) (data : Payload) (now : Int)
  | trade (contractID : String) (data : Payload) (now : Int)
  | depth (contractID : String) (data : Payload) (now : Int)
deriving DecidableEq

/-- Arrival time of an event. -/
def evTime : TickEvent → Int
  | TickEvent.quote _ _ now => now
  | TickEvent.trade _ _ now => now
  | TickEvent.depth _ _ now => now

/-- The price a well-formed event for instrument `target` contributes to
the bar: the mid-price for a quote, the trade price for a trade (a trade
also needs a well-formed size to be processed at all); `none` when the
event is for another instrument, malformed, or a depth update. -/
def evPrice (target : String) : TickEvent → Option ℚ
  | TickEvent.quote cid data _ =>
    if cid = target then
      match getFloat data bidKey, getFloat data askKey with
      | some bid, some ask => some ((bid + ask) / 2)
      | _, _ => none
    else none
  | TickEvent.trade cid data _ =>
    if cid = target then
      match getFloat data priceKey, getFloat data sizeKey with
      | some price, some _ => some price
      | _, _ => none
    else none
  | TickEvent.depth _ _ _ => none

/-- The volume a well-formed event for instrument `target` contributes
when applied as an in-bar update: the truncated size for a trade, zero
otherwise. -/
def evVol (target : String) : TickEvent → Int
  | TickEvent.trade cid data _ =>
    if cid = target then
      match getFloat data priceKey, getFloat data sizeKey with
      | some _, some size => ratTrunc size
      | _, _ => 0
    else 0
  | _ => 0

/-- Dispatch of one event to the aggregator (the Connection Manager
forwards each gateway message to the matching handler method). -/
def step (m : MarketDataManager) (e : TickEvent) :
    MarketDataManager × List HistoryBar :=
  match e with
  | TickEvent.quote cid data now => OnQuote m cid data now
  | TickEvent.trade cid data now => OnTrade m cid data now
  | TickEvent.depth cid data _ => OnDepth m cid data

/-- Sequential delivery of a list of events, collecting all emitted
bars in order. -/
def runEvents : MarketDataManager → List TickEvent → MarketDataManager × List HistoryBar
  | m, [] => (m, [])
  | m, e :: es =>
    let r := step m e
    let rest := runEvents r.1 es
    (rest.1, r.2 ++ rest.2)

/-- A quote event built from bid/ask numbers (a well-formed quote
payload). -/
def mkQuote (cid : String) (bid ask : ℚ) (t : Int) : TickEvent :=
  TickEvent.quote cid [(bidKey, JsonVal.num bid), (askKey, JsonVal.num ask)] t

/-- A trade event built from price/size numbers (a well-formed trade
payload). -/
def mkTrade (cid : String) (price size : ℚ) (t : Int) : TickEvent :=
  TickEvent.trade cid [(priceKey, JsonVal.num price), (sizeKey, JsonVal.num size)] t

/-- The mid-price of a `(time, bid, ask)` triple. -/
def midPrice (r : Int × ℚ × ℚ) : ℚ :=
  (r.2.1 + r.2.2) / 2

/-- The quote events of a list of `(time, bid, ask)` triples. -/
def quoteEvents (cid : String) (ticks : List (Int × ℚ × ℚ)) : List TickEvent :=
  ticks.map (fun r => mkQuote cid r.2.1 r.2.2 r.1)

/-- The bar invariant from the spec:
`low ≤ min(open,close) ≤ max(open,close) ≤ high`. -/
def BarInv (b : HistoryBar) : Prop :=
  b.Low ≤ min b.Open b.Close ∧
  min b.Open b.Close ≤ max b.Open b.Close ∧
  max b.Open b.Close ≤ b.High

/-! ## Connection manager (SignalRClient) -/

/-- The shared mutable state of a `SignalRClient`: the subscription set
(Go `map[string]bool`, as a duplicate-free list of keys), the connection
flag, and the reconnection counter. -/
structure SignalRClient where
  subscriptions : List String
  isConnected : Bool
  reconnectCount : Nat
deriving DecidableEq

/-- The outcome oracle for `client.Send`: maps a hub method name and a
contract id to the error delivered on the completion channel (`none`
means success). -/
abbrev SendEnv := String → String → Option String

def subQuotesMethod : String := "SubscribeContractQuotes"

def subTradesMethod : String := "SubscribeContractTrades"

def subDepthMethod : String := "SubscribeContractMarketDepth"

def unsQuotesMethod : String := "UnsubscribeContractQuotes"

def unsTradesMethod : String := "UnsubscribeContractTrades"

def unsDepthMethod : String := "UnsubscribeContractMarketDepth"

def notConnectedMsg : String := "not connected to SignalR hub"

def subQuotesFailMsg : String := "failed to subscribe to quotes: "

def subTradesFailMsg : String := "failed to subscribe to trades: "

def subDepthFailMsg : String := "failed to subscribe to market depth: "

def unsQuotesFailMsg : String := "failed to unsubscribe from quotes: "

def unsTradesFailMsg : String := "failed to unsubscribe from trades: "

def unsDepthFailMsg : String := "failed to unsubscribe from market depth: "

/-- Go `c.subscriptions[contractID] = true`: map insertion (a no-op when
the key is already present). -/
def insertSub (contractID : String) (subs : List String) : List String :=
  if contractID ∈ subs then subs else subs ++ [contractID]

/-- Go `delete(c.subscriptions, contractID)`: map deletion. -/
def deleteSub (contractID : String) (subs : List String) : List String :=
  subs.filter (fun x => x ≠ contractID)

/-- `SignalRClient.Subscribe`: requires the connected state, then issues
the three registrations in order (quotes, trades, depth), failing fast on
the first error; the instrument is added to the subscription set only
after all three succeed. -/
def Subscribe (c : SignalRClient) (env : SendEnv) (contractID : String) :
    SignalRClient × Option String :=
  if !c.isConnected then (c, some notConnectedMsg)
  else
    match env subQuotesMethod contractID with
    | some e => (c, some (subQuotesFailMsg ++ e))
    | none =>
      match env subTradesMethod contractID with
      | some e => (c, some (subTradesFailMsg ++ e))
      | none =>
        match env subDepthMethod contractID with
        | some e => (c, some (subDepthFailMsg ++ e))
        | none => ({ c with subscriptions := insertSub contractID c.subscriptions }, none)

/-- `SignalRClient.unsubscribe` (lower-case, lock already held): issues
the three unregistrations in order, failing fast on the first error; the
instrument is deleted from the subscription set only after all three
succeed. -/
def unsubscribe (c : SignalRClient) (env : SendEnv) (contractID : String) :
    SignalRClient × Option String :=
  if !c.isConnected then (c, some notConnectedMsg)
  else
    match env unsQuotesMethod contractID with
    | some e => (c, some (unsQuotesFailMsg ++ e))
    | none =>
      match env unsTradesMethod contractID with
      | some e => (c, some (unsTradesFailMsg ++ e))
      | none =>
        match env unsDepthMethod contractID with
        | some e => (c, some (unsDepthFailMsg ++ e))
        | none => ({ c with subscriptions := deleteSub contractID c.subscriptions }, none)

/-- `SignalRClient.Unsubscribe`: takes the lock and delegates to
`unsubscribe`. -/
def Unsubscribe (c : SignalRClient) (env : SendEnv) (contractID : String) :
    SignalRClient × Option String :=
  unsubscribe c env contractID

/-- `SignalRClient.Stop`: best-effort unsubscribe of every tracked
contract (individual failures are only logged), then the connection flag
is cleared. -/
def Stop (c : SignalRClient) (env : SendEnv) : SignalRClient :=
  let c1 := c.subscriptions.foldl (fun acc id => (unsubscribe acc env id).1) c
  { c1 with isConnected := false }

/-- `SignalRClient.OnConnected`: sets the connected flag, then re-issues
`Subscribe` for every tracked contract (failures are only logged).  The
second component records, in order, each contract the loop called
`Subscribe` for together with the error that call returned. -/
def OnConnected (c : SignalRClient) (env : SendEnv) :
    SignalRClient × List (String × Option String) :=
  let c1 := { c with isConnected := true }
  c.subscriptions.foldl
    (fun acc id =>
      let r := Subscribe acc.1 env id
      (r.1, acc.2 ++ [(id, r.2)]))
    (c1, [])

/-- `SignalRClient.OnDisconnected`: clears the connection flag and
increments the reconnection counter. -/
def OnDisconnected (c : SignalRClient) : SignalRClient :=
  { c with isConnected := false, reconnectCount := c.reconnectCount + 1 }

/-- `SignalRClient.IsConnected`. -/
def IsConnected (c : SignalRClient) : Bool :=
  c.isConnected

/-- Success of all three unregistration round trips for a contract. -/
def unsEnvOK (env : SendEnv) (contractID : String) : Prop :=
  env unsQuotesMethod contractID = none ∧
  env unsTradesMethod contractID = none ∧
  env unsDepthMethod contractID = none

/-- Success of all three registration round trips for a contract. -/
def subEnvOK (env : SendEnv) (contractID : String) : Prop :=
  env subQuotesMethod contractID = none ∧
  env subTradesMethod contractID = none ∧
  env subDepthMethod contractID = none

/-! ## Lemmas about the bar aggregator -/

theorem if_lt_max (x y : ℚ) : (if x < y then y else x) = max x y := by
  rcases lt_or_ge x y with h | h
  · rw [if_pos h, max_eq_right h.le]
  · rw [if_neg (not_lt.mpr h), max_eq_left h]

theorem if_lt_min (x y : ℚ) : (if y < x then y else x) = min x y := by
  rcases lt_or_ge y x with h | h
  · rw [if_pos h, min_eq_right h.le]
  · rw [if_neg (not_lt.mpr h), min_eq_left h]

theorem evVol_eq_zero_of_evPrice_none (target : String) (e : TickEvent)
    (h : evPrice target e = none) : evVol target e = 0 := by
  cases e with
  | quote cid data now => rfl
  | depth cid data now => rfl
  | trade cid data now =>
    unfold evPrice at h
    unfold evVol
    by_cases hc : cid = target
    · simp only [hc, if_pos rfl] at h ⊢
      cases hprice : getFloat data priceKey with
      | none => simp [hprice]
      | some pr =>
        cases hsize : getFloat data sizeKey with
        | none => simp [hprice, hsize]
        | some sz =>
          rw [hprice, hsize] at h
          exact absurd h (by simp)
    · simp [hc]

theorem step_of_evPrice_none (m : MarketDataManager) (e : TickEvent)
    (h : evPrice m.contractID e = none) : step m e = (m, []) := by
  cases e with
  | depth cid data now => rfl
  | quote cid data now =>
    unfold evPrice at h
    show OnQuote m cid data now = (m, [])
    unfold OnQuote
    by_cases hc : cid = m.contractID
    · simp only [hc, if_pos rfl] at h
      cases hb : getFloat data bidKey with
      | none => simp [hc, hb]
      | some b =>
        cases ha : getFloat data askKey with
        | none => simp [hc, hb, ha]
        | some a =>
          rw [hb, ha] at h
          exact absurd h (by simp)
    · simp [hc]
  | trade cid data now =>
    unfold evPrice at h
    show OnTrade m cid data now = (m, [])
    unfold OnTrade
    by_cases hc : cid = m.contractID
    · simp only [hc, if_pos rfl] at h
      cases hprice : getFloat data priceKey with
      | none => simp [hc, hprice]
      | some pr =>
        cases hsize : getFloat data sizeKey with
        | none => simp [hc, hprice, hsize]
        | some sz =>
          rw [hprice, hsize] at h
          exact absurd h (by simp)
    · simp [hc]

theorem step_open (m : MarketDataManager) (e : TickEvent) (p : ℚ)
    (hbar : m.currentBar = none)
    (hp : evPrice m.contractID e = some p) :
    (step m e).2 = [] ∧
    (step m e).1.barPeriod = m.barPeriod ∧
    (step m e).1.contractID = m.contractID ∧
    (step m e).1.currentBar = some
      { Time := timeTruncate (evTime e) m.barPeriod
        Open := p
        High := p
        Low := p
        Close := p
        Vol := 0 } := by
  cases e with
  | depth cid data now => exact absurd hp (by simp [evPrice])
  | quote cid data now =>
    simp only [evPrice] at hp
    by_cases hc : cid = m.contractID
    · subst hc
      rw [if_pos rfl] at hp
      cases hb : getFloat data bidKey with
      | none => rw [hb] at hp; exact absurd hp (by simp)
      | some b =>
        cases ha : getFloat data askKey with
        | none => rw [hb, ha] at hp; exact absurd hp (by simp)
        | some a =>
          rw [hb, ha] at hp
          simp only [Option.some.injEq] at hp
          subst hp
          simp only [step, evTime]
          unfold OnQuote
          rw [if_neg (fun hne => hne rfl), hb, ha]
          simp [hbar, initNewBar]
    · exact absurd hp (by simp [hc])
  | trade cid data now =>
    simp only [evPrice] at hp
    by_cases hc : cid = m.contractID
    · subst hc
      rw [if_pos rfl] at hp
      cases hprice : getFloat data priceKey with
      | none => rw [hprice] at hp; exact absurd hp (by simp)
      | some pr =>
        cases hsize : getFloat data sizeKey with
        | none => rw [hprice, hsize] at hp; exact absurd hp (by simp)
        | some sz =>
          rw [hprice, hsize] at hp
          simp only [Option.some.injEq] at hp
          subst hp
          simp only [step, evTime]
          unfold OnTrade
          rw [if_neg (fun hne => hne rfl), hprice, hsize]
          simp [hbar, initNewBar]
    · exact absurd hp (by simp [hc])

theorem step_inBar (m : MarketDataManager) (bar : HistoryBar) (e : TickEvent) (p : ℚ)
    (hbar : m.currentBar = some bar)
    (hp : evPrice m.contractID e = some p)
    (hlt : evTime e - bar.Time < m.barPeriod) :
    (step m e).2 = [] ∧
    (step m e).1.barPeriod = m.barPeriod ∧
    (step m e).1.contractID = m.contractID ∧
    (step m e).1.currentBar = some
      { Time := bar.Time
        Open := bar.Open
        High := max bar.High p
        Low := min bar.Low p
        Close := p
        Vol := bar.Vol + evVol m.contractID e } := by
  cases e with
  | depth cid data now => exact absurd hp (by simp [evPrice])
  | quote cid data now =>
    simp only [evPrice] at hp
    simp only [evTime] at hlt
    by_cases hc : cid = m.contractID
    · subst hc
      rw [if_pos rfl] at hp
      cases hb : getFloat data bidKey with
      | none => rw [hb] at hp; exact absurd hp (by simp)
      | some b =>
        cases ha : getFloat data askKey with
        | none => rw [hb, ha] at hp; exact absurd hp (by simp)
        | some a =>
          rw [hb, ha] at hp
          simp only [Option.some.injEq] at hp
          subst hp
          simp only [step, evTime]
          unfold OnQuote
          rw [if_neg (fun hne => hne rfl), hb, ha, hbar]
          simp only [ge_iff_le]
          rw [if_neg (not_le.mpr hlt)]
          simp [if_lt_max, if_lt_min, evVol]
    · exact absurd hp (by simp [hc])
  | trade cid data now =>
    simp only [evPrice] at hp
    simp only [evTime] at hlt
    by_cases hc : cid = m.contractID
    · subst hc
      rw [if_pos rfl] at hp
      cases hprice : getFloat data priceKey with
      | none => rw [hprice] at hp; exact absurd hp (by simp)
      | some pr =>
        cases hsize : getFloat data sizeKey with
        | none => rw [hprice, hsize] at hp; exact absurd hp (by simp)
        | some sz =>
          rw [hprice, hsize] at hp
          simp only [Option.some.injEq] at hp
          subst hp
          simp only [step, evTime]
          unfold OnTrade
          rw [if_neg (fun hne => hne rfl), hprice, hsize]
          simp only [hbar, ge_iff_le]
          rw [if_neg (not_le.mpr hlt)]
          simp [if_lt_max, if_lt_min, evVol, hprice, hsize]
    · exact absurd hp (by simp [hc])

theorem step_rollover (m : MarketDataManager) (bar : HistoryBar) (e : TickEvent) (p : ℚ)
    (hbar : m.currentBar = some bar)
    (hp : evPrice m.contractID e = some p)
    (hge : m.barPeriod ≤ evTime e - bar.Time) :
    (step m e).2 =
      [{ Time := bar.Time
         Open := bar.Open
         High := max bar.High p
         Low := min bar.Low p
         Close := p
         Vol := bar.Vol + evVol m.contractID e }] ∧
    (step m e).1.barPeriod = m.barPeriod ∧
    (step m e).1.contractID = m.contractID ∧
    (step m e).1.currentBar = some
      { Time := timeTruncate (evTime e) m.barPeriod
        Open := p
        High := p
        Low := p
        Close := p
        Vol := 0 } := by
  cases e with
  | depth cid data now => exact absurd hp (by simp [evPrice])
  | quote cid data now =>
    simp only [evPrice] at hp
    simp only [evTime] at hge
    by_cases hc : cid = m.contractID
    · subst hc
      rw [if_pos rfl] at hp
      cases hb : getFloat data bidKey with
      | none => rw [hb] at hp; exact absurd hp (by simp)
      | some b =>
        cases ha : getFloat data askKey with
        | none => rw [hb, ha] at hp; exact absurd hp (by simp)
        | some a =>
          rw [hb, ha] at hp
          simp only [Option.some.injEq] at hp
          subst hp
          simp only [step, evTime]
          unfold OnQuote
          rw [if_neg (fun hne => hne rfl), hb, ha, hbar]
          simp only [ge_iff_le]
          rw [if_pos hge]
          simp [if_lt_max, if_lt_min, evVol, closeCurrentBar, initNewBar]
    · exact absurd hp (by simp [hc])
  | trade cid data now =>
    simp only [evPrice] at hp
    simp only [evTime] at hge
    by_cases hc : cid = m.contractID
    · subst hc
      rw [if_pos rfl] at hp
      cases hprice : getFloat data priceKey with
      | none => rw [hprice] at hp; exact absurd hp (by simp)
      | some pr =>
        cases hsize : getFloat data sizeKey with
        | none => rw [hprice, hsize] at hp; exact absurd hp (by simp)
        | some sz =>
          rw [hprice, hsize] at hp
          simp only [Option.some.injEq] at hp
          subst hp
          simp only [step, evTime]
          unfold OnTrade
          rw [if_neg (fun hne => hne rfl), hprice, hsize]
          simp only [hbar, ge_iff_le]
          rw [if_pos hge]
          simp [if_lt_max, if_lt_min, evVol, closeCurrentBar, initNewBar, hprice, hsize]
    · exact absurd hp (by simp [hc])

theorem timeTruncate_spec (t d : Int) (hd : 0 < d) :
    d ∣ timeTruncate t d ∧ timeTruncate t d ≤ t ∧
      ∀ k : Int, d ∣ k → k ≤ t → k ≤ timeTruncate t d := by
  have hne : ¬ d ≤ 0 := not_le.mpr hd
  unfold timeTruncate
  rw [if_neg hne]
  refine ⟨Dvd.intro _ rfl, ?_, ?_⟩
  · have hsum := Int.ediv_add_emod t d
    have hmod : 0 ≤ t % d := Int.emod_nonneg t (ne_of_gt hd)
    omega
  · intro k hk hkt
    obtain ⟨j, rfl⟩ := hk
    have hj : j ≤ t / d := by
      rw [Int.le_ediv_iff_mul_le hd]
      rw [mul_comm]
      exact hkt
    exact mul_le_mul_of_nonneg_left hj (le_of_lt hd)

theorem barInv_update (T V : Int) (bar : HistoryBar) (p : ℚ) (h : BarInv bar) :
    BarInv
      { Time := T
        Open := bar.Open
        High := max bar.High p
        Low := min bar.Low p
        Close := p
        Vol := V } := by
  obtain ⟨h1, h2, h3⟩ := h
  refine ⟨?_, min_le_max, ?_⟩
  · show min bar.Low p ≤ min bar.Open p
    exact min_le_min (le_trans h1 (min_le_left _ _)) (le_refl p)
  · show max bar.Open p ≤ max bar.High p
    exact max_le_max (le_trans (le_max_left _ _) h3) (le_refl p)

/-! ## Claim theorems for the bar aggregator -/

/-- C6: a quote or trade event whose numeric fields are missing or
non-numeric is dropped: the whole aggregator state is returned unchanged
and no bar is emitted. -/
theorem C6_malformed_ignored (m : MarketDataManager) (cid : String)
    (data : Payload) (now : Int) :
    ((getFloat data bidKey = none ∨ getFloat data askKey = none) →
      OnQuote m cid data now = (m, [])) ∧
    ((getFloat data priceKey = none ∨ getFloat data sizeKey = none) →
      OnTrade m cid data now = (m, [])) := by
  constructor
  · intro h
    by_cases hc : cid = m.contractID
    · subst hc
      unfold OnQuote
      rw [if_neg (fun hne => hne rfl)]
      cases hb : getFloat data bidKey with
      | none => simp [hb]
      | some b =>
        cases ha : getFloat data askKey with
        | none => simp [hb, ha]
        | some a =>
          rw [hb, ha] at h
          rcases h with h | h <;> exact absurd h (by simp)
    · unfold OnQuote
      rw [if_pos hc]
  · intro h
    by_cases hc : cid = m.contractID
    · subst hc
      unfold OnTrade
      rw [if_neg (fun hne => hne rfl)]
      cases hprice : getFloat data priceKey with
      | none => simp [hprice]
      | some pr =>
        cases hsize : getFloat data sizeKey with
        | none => simp [hprice, hsize]
        | some sz =>
          rw [hprice, hsize] at h
          rcases h with h | h <;> exact absurd h (by simp)
    · unfold OnTrade
      rw [if_pos hc]

/-- C6 witness: a quote with a non-numeric bid and a trade with missing
fields are both dropped with the state unchanged and nothing emitted. -/
theorem C6_malformed_witness :
    OnQuote (NewMarketDataManager "X" 1) "X"
        [(bidKey, JsonVal.other), (askKey, JsonVal.num 100)] 5
      = (NewMarketDataManager "X" 1, []) ∧
    OnTrade (NewMarketDataManager "X" 1) "X" [] 5
      = (NewMarketDataManager "X" 1, []) := by
  constructor
  · exact (C6_malformed_ignored (NewMarketDataManager "X" 1) "X"
      [(bidKey, JsonVal.other), (askKey, JsonVal.num 100)] 5).1 (Or.inl (by decide))
  · exact (C6_malformed_ignored (NewMarketDataManager "X" 1) "X" [] 5).2
      (Or.inl (by decide))

/-- C9: with a positive period, the bar opened by `initializeNewBar` for
a tick at time `t` has `periodStart` equal to the largest multiple of the
period not exceeding `t`. -/
theorem C9_periodStart_alignment (m : MarketDataManager) (t : Int) (price : ℚ)
    (hP : 0 < m.barPeriod) :
    ∃ b, (initNewBar m t price).currentBar = some b ∧
      m.barPeriod ∣ b.Time ∧ b.Time ≤ t ∧
      ∀ k : Int, m.barPeriod ∣ k → k ≤ t → k ≤ b.Time := by
  obtain ⟨h1, h2, h3⟩ := timeTruncate_spec t m.barPeriod hP
  exact ⟨_, rfl, h1, h2, h3⟩

/-- C9 witness: a one-minute (60 time-unit) period truncates a tick at
637 (10:00:37 within its hour) to period start 600 (10:00:00): the
largest multiple of 60 below 637. -/
theorem C9_periodStart_witness :
    0 < (NewMarketDataManager "X" 1).barPeriod ∧
    (∃ b, (initNewBar (NewMarketDataManager "X" 1) 637 100).currentBar = some b ∧
      (NewMarketDataManager "X" 1).barPeriod ∣ b.Time ∧ b.Time ≤ 637 ∧
      ∀ k : Int, (NewMarketDataManager "X" 1).barPeriod ∣ k → k ≤ 637 → k ≤ b.Time) ∧
    (initNewBar (NewMarketDataManager "X" 1) 637 100).currentBar
      = some { Time := 600, Open := 100, High := 100, Low := 100, Close := 100, Vol := 0 } :=
  ⟨by decide,
   C9_periodStart_alignment (NewMarketDataManager "X" 1) 637 100 (by decide),
   by decide⟩

/-- C10: a bar is emitted only while processing a well-formed quote or
trade for the aggregator's own instrument, and only when a current bar
exists whose period has elapsed at the tick's arrival time; the tick that
opens a bar (in particular any tick arriving with no current bar) never
emits, and `OnDepth` neither emits nor changes state.  There is no other
transition: emission can only happen inside these handler calls. -/
theorem C10_emission_only_on_rollover (m : MarketDataManager) (e : TickEvent) :
    ((step m e).2 ≠ [] →
      ∃ bar p, m.currentBar = some bar ∧ evPrice m.contractID e = some p ∧
        m.barPeriod ≤ evTime e - bar.Time) ∧
    (m.currentBar = none → (step m e).2 = []) ∧
    (∀ cid data, OnDepth m cid data = (m, [])) := by
  refine ⟨?_, ?_, fun cid data => rfl⟩
  · intro hne
    cases hp : evPrice m.contractID e with
    | none =>
      rw [step_of_evPrice_none m e hp] at hne
      exact absurd rfl hne
    | some p =>
      cases hbar : m.currentBar with
      | none =>
        rw [(step_open m e p hbar hp).1] at hne
        exact absurd rfl hne
      | some bar =>
        by_cases hlt : evTime e - bar.Time < m.barPeriod
        · rw [(step_inBar m bar e p hbar hp hlt).1] at hne
          exact absurd rfl hne
        · exact ⟨bar, p, rfl, rfl, not_lt.mp hlt⟩

  · intro hbar
    cases hp : evPrice m.contractID e with
    | none => rw [step_of_evPrice_none m e hp]
    | some p => exact (step_open m e p hbar hp).1

/-- C10 witness: the first tick after construction opens a bar and emits
nothing. -/
theorem C10_emission_witness :
    (step (NewMarketDataManager "X" 1) (mkQuote "X" 100 101 5)).2 = [] :=
  (C10_emission_only_on_rollover (NewMarketDataManager "X" 1)
    (mkQuote "X" 100 101 5)).2.1 rfl

/-- C4: a well-formed tick for the aggregator's instrument arriving at
least one period after the current bar's period start closes and emits
exactly one bar — already updated with the tick's price in extremes and
close (and its truncated size for a trade) — and opens exactly one new
bar seeded with the same price, with period start the tick's arrival time
truncated to the period. -/
theorem C4_rollover_closes_and_opens (m : MarketDataManager) (bar : HistoryBar)
    (e : TickEvent) (p : ℚ)
    (hbar : m.currentBar = some bar)
    (hp : evPrice m.contractID e = some p)
    (hge : m.barPeriod ≤ evTime e - bar.Time) :
    (step m e).2 =
      [{ Time := bar.Time
         Open := bar.Open
         High := max bar.High p
         Low := min bar.Low p
         Close := p
         Vol := bar.Vol + evVol m.contractID e }] ∧
    (step m e).1.currentBar = some
      { Time := timeTruncate (evTime e) m.barPeriod
        Open := p
        High := p
        Low := p
        Close := p
        Vol := 0 } ∧
    (step m e).1.barPeriod = m.barPeriod ∧
    (step m e).1.contractID = m.contractID := by
  obtain ⟨h1, h2, h3, h4⟩ := step_rollover m bar e p hbar hp hge
  exact ⟨h1, h4, h2, h3⟩

/-- C4 witness: with a 60-unit period and a current bar started at 0, a
quote at time 70 (mid-price 99) closes exactly the updated old bar and
opens a fresh bar at period start 60. -/
theorem C4_rollover_witness :
    (step { currentBar := some { Time := 0, Open := 100, High := 101, Low := 100,
                                 Close := 101, Vol := 5 }
            lastTradeTime := 30, barPeriod := 60, contractID := "X" }
        (mkQuote "X" 98 100 70)).2.length = 1 ∧
    (step { currentBar := some { Time := 0, Open := 100, High := 101, Low := 100,
                                 Close := 101, Vol := 5 }
            lastTradeTime := 30, barPeriod := 60, contractID := "X" }
        (mkQuote "X" 98 100 70)).1.currentBar = some
      { Time := 60, Open := (98 + 100) / 2, High := (98 + 100) / 2,
        Low := (98 + 100) / 2, Close := (98 + 100) / 2, Vol := 0 } := by
  have h := C4_rollover_closes_and_opens
    { currentBar := some { Time := 0, Open := 100, High := 101, Low := 100,
                           Close := 101, Vol := 5 }
      lastTradeTime := 30, barPeriod := 60, contractID := "X" }
    { Time := 0, Open := 100, High := 101, Low := 100, Close := 101, Vol := 5 }
    (mkQuote "X" 98 100 70) ((98 + 100) / 2) rfl rfl (by decide)
  refine ⟨?_, h.2.1⟩
  rw [h.1]
  rfl

/-- C7: every tick — well-formed or not — preserves the bar invariant
`low ≤ min(open,close) ≤ max(open,close) ≤ high` and non-negativity of
the volume for the current bar and for any emitted bar (given trade sizes
are non-negative), and while the bar stays open (no emission) its volume
never decreases. -/
theorem C7_bar_invariant (m : MarketDataManager) (e : TickEvent)
    (hinv : ∀ b, m.currentBar = some b → BarInv b ∧ 0 ≤ b.Vol)
    (hsz : 0 ≤ evVol m.contractID e) :
    (∀ b, (step m e).1.currentBar = some b → BarInv b ∧ 0 ≤ b.Vol) ∧
    (∀ b, b ∈ (step m e).2 → BarInv b ∧ 0 ≤ b.Vol) ∧
    ((step m e).2 = [] →
      ∀ b b2, m.currentBar = some b → (step m e).1.currentBar = some b2 →
        b.Vol ≤ b2.Vol) := by
  cases hp : evPrice m.contractID e with
  | none =>
    have hs := step_of_evPrice_none m e hp
    rw [hs]
    refine ⟨?_, ?_, ?_⟩
    · intro b hb
      exact hinv b hb
    · intro b hb
      exact absurd hb (by simp)
    · intro _ b b2 hb hb2
      have hb2a : m.currentBar = some b2 := hb2
      rw [hb] at hb2a
      injection hb2a with hbb
      rw [hbb]
  | some p =>
    cases hbar : m.currentBar with
    | none =>
      obtain ⟨h1, h2, h3, h4⟩ := step_open m e p hbar hp
      refine ⟨?_, ?_, ?_⟩
      · intro b hb
        rw [h4] at hb
        injection hb with hb
        subst hb
        exact ⟨by simp [BarInv], le_refl 0⟩
      · intro b hb
        rw [h1] at hb
        exact absurd hb (by simp)
      · intro _ b b2 hb _
        exact absurd hb (by simp)
    | some bar =>
      have hbi := hinv bar hbar
      by_cases hlt : evTime e - bar.Time < m.barPeriod
      · obtain ⟨h1, h2, h3, h4⟩ := step_inBar m bar e p hbar hp hlt
        refine ⟨?_, ?_, ?_⟩
        · intro b hb
          rw [h4] at hb
          injection hb with hb
          subst hb
          exact ⟨barInv_update bar.Time (bar.Vol + evVol m.contractID e) bar p hbi.1,
                 add_nonneg hbi.2 hsz⟩
        · intro b hb
          rw [h1] at hb
          exact absurd hb (by simp)
        · intro _ b b2 hb hb2
          injection hb with hb
          subst hb
          rw [h4] at hb2
          injection hb2 with hb2
          subst hb2
          exact le_add_of_nonneg_right hsz
      · have hge : m.barPeriod ≤ evTime e - bar.Time := not_lt.mp hlt
        obtain ⟨h1, h2, h3, h4⟩ := step_rollover m bar e p hbar hp hge
        refine ⟨?_, ?_, ?_⟩
        · intro b hb
          rw [h4] at hb
          injection hb with hb
          subst hb
          exact ⟨by simp [BarInv], le_refl 0⟩
        · intro b hb
          rw [h1] at hb
          rw [List.mem_singleton] at hb
          subst hb
          exact ⟨barInv_update bar.Time (bar.Vol + evVol m.contractID e) bar p hbi.1,
                 add_nonneg hbi.2 hsz⟩
        · intro hemp
          rw [h1] at hemp
          exact absurd hemp (by simp)

/-- C7 witness: from a fresh aggregator, the opening quote establishes a
bar satisfying the invariant with non-negative volume. -/
theorem C7_bar_invariant_witness :
    (∀ b, (step (NewMarketDataManager "X" 1) (mkQuote "X" 100 101 5)).1.currentBar
        = some b → BarInv b ∧ 0 ≤ b.Vol) ∧
    (∀ b, b ∈ (step (NewMarketDataManager "X" 1) (mkQuote "X" 100 101 5)).2 →
        BarInv b ∧ 0 ≤ b.Vol) ∧
    ((step (NewMarketDataManager "X" 1) (mkQuote "X" 100 101 5)).2 = [] →
      ∀ b b2, (NewMarketDataManager "X" 1).currentBar = some b →
        (step (NewMarketDataManager "X" 1) (mkQuote "X" 100 101 5)).1.currentBar
          = some b2 →
        b.Vol ≤ b2.Vol) :=
  C7_bar_invariant (NewMarketDataManager "X" 1) (mkQuote "X" 100 101 5)
    (fun b h => by simp [NewMarketDataManager] at h) (by decide)

/-! ## Running event sequences within one bar period -/

theorem evPrice_mkQuote (target : String) (b a : ℚ) (t : Int) :
    evPrice target (mkQuote target b a t) = some ((b + a) / 2) := by
  simp only [mkQuote, evPrice]
  rfl

theorem evPrice_mkTrade (target : String) (p s : ℚ) (t : Int) :
    evPrice target (mkTrade target p s t) = some p := by
  simp only [mkTrade, evPrice]
  rfl

theorem evVol_mkTrade (target : String) (p s : ℚ) (t : Int) :
    evVol target (mkTrade target p s t) = ratTrunc s := by
  simp only [mkTrade, evVol]
  rfl

theorem filterMap_some_comp {α β : Type} (f : α → β) (l : List α) :
    l.filterMap (fun x => some (f x)) = l.map f := by
  induction l with
  | nil => rfl
  | cons x l ih => simp [List.filterMap_cons, ih]

theorem foldl_max_mem (a : ℚ) (l : List ℚ) : l.foldl max a ∈ a :: l := by
  induction l generalizing a with
  | nil => simp
  | cons b l ih =>
    rw [List.foldl_cons]
    rcases List.mem_cons.mp (ih (max a b)) with h1 | h1
    · rcases max_choice a b with hm | hm
      · rw [h1, hm]
        exact List.mem_cons_self a _
      · rw [h1, hm]
        exact List.mem_cons_of_mem a (List.mem_cons_self b l)
    · exact List.mem_cons_of_mem a (List.mem_cons_of_mem b h1)

theorem le_foldl_max (a : ℚ) (l : List ℚ) : ∀ q ∈ a :: l, q ≤ l.foldl max a := by
  induction l generalizing a with
  | nil =>
    intro q hq
    rw [List.mem_singleton] at hq
    exact le_of_eq hq
  | cons b l ih =>
    intro q hq
    rw [List.foldl_cons]
    rcases List.mem_cons.mp hq with h1 | h1
    · rw [h1]
      exact le_trans (le_max_left a b) (ih (max a b) (max a b) (List.mem_cons_self _ _))
    · rcases List.mem_cons.mp h1 with h2 | h2
      · rw [h2]
        exact le_trans (le_max_right a b) (ih (max a b) (max a b) (List.mem_cons_self _ _))
      · exact ih (max a b) q (List.mem_cons_of_mem _ h2)

theorem foldl_min_mem (a : ℚ) (l : List ℚ) : l.foldl min a ∈ a :: l := by
  induction l generalizing a with
  | nil => simp
  | cons b l ih =>
    rw [List.foldl_cons]
    rcases List.mem_cons.mp (ih (min a b)) with h1 | h1
    · rcases min_choice a b with hm | hm
      · rw [h1, hm]
        exact List.mem_cons_self a _
      · rw [h1, hm]
        exact List.mem_cons_of_mem a (List.mem_cons_self b l)
    · exact List.mem_cons_of_mem a (List.mem_cons_of_mem b h1)

theorem foldl_min_le (a : ℚ) (l : List ℚ) : ∀ q ∈ a :: l, l.foldl min a ≤ q := by
  induction l generalizing a with
  | nil =>
    intro q hq
    rw [List.mem_singleton] at hq
    exact le_of_eq hq.symm
  | cons b l ih =>
    intro q hq
    rw [List.foldl_cons]
    rcases List.mem_cons.mp hq with h1 | h1
    · rw [h1]
      exact le_trans (ih (min a b) (min a b) (List.mem_cons_self _ _)) (min_le_left a b)
    · rcases List.mem_cons.mp h1 with h2 | h2
      · rw [h2]
        exact le_trans (ih (min a b) (min a b) (List.mem_cons_self _ _)) (min_le_right a b)
      · exact ih (min a b) q (List.mem_cons_of_mem _ h2)

theorem foldl_replace_eq_getLastD (a : ℚ) (l : List ℚ) :
    l.foldl (fun _ q => q) a = (a :: l).getLastD 0 := by
  induction l generalizing a with
  | nil => simp [List.getLastD]
  | cons b l ih =>
    rw [List.foldl_cons]
    rw [ih b]
    simp [List.getLastD_cons]

/-- Running any list of events whose arrival times all fall strictly
inside the current bar's period keeps that single bar open (nothing is
emitted), keeps its period start and open price, folds `max`/`min`/last
over the prices the events contribute, and adds up their volume
contributions. -/
theorem runEvents_inBar (es : List TickEvent) :
    ∀ (m : MarketDataManager) (bar : HistoryBar),
      m.currentBar = some bar →
      (∀ e ∈ es, evTime e - bar.Time < m.barPeriod) →
      (runEvents m es).2 = [] ∧
      (runEvents m es).1.barPeriod = m.barPeriod ∧
      (runEvents m es).1.contractID = m.contractID ∧
      (runEvents m es).1.currentBar = some
        { Time := bar.Time
          Open := bar.Open
          High := (es.filterMap (evPrice m.contractID)).foldl max bar.High
          Low := (es.filterMap (evPrice m.contractID)).foldl min bar.Low
          Close := (es.filterMap (evPrice m.contractID)).foldl (fun _ q => q) bar.Close
          Vol := bar.Vol + (es.map (evVol m.contractID)).sum } := by
  induction es with
  | nil =>
    intro m bar hbar hin
    refine ⟨rfl, rfl, rfl, ?_⟩
    show m.currentBar = _
    rw [hbar]
    obtain ⟨T, O, H, L, C, V⟩ := bar
    simp
  | cons e es ih =>
    intro m bar hbar hin
    have hlt : evTime e - bar.Time < m.barPeriod := hin e (List.mem_cons_self e es)
    have hrun : runEvents m (e :: es)
        = ((runEvents (step m e).1 es).1,
           (step m e).2 ++ (runEvents (step m e).1 es).2) := rfl
    cases hp : evPrice m.contractID e with
    | none =>
      have hs := step_of_evPrice_none m e hp
      have hvol := evVol_eq_zero_of_evPrice_none m.contractID e hp
      obtain ⟨ih1, ih2, ih3, ih4⟩ :=
        ih m bar hbar (fun x hx => hin x (List.mem_cons_of_mem e hx))
      rw [hrun, hs]
      refine ⟨by simp [ih1], ih2, ih3, ?_⟩
      rw [ih4]
      simp [List.filterMap_cons, hp, hvol]
    | some p =>
      obtain ⟨h1, h2, h3, h4⟩ := step_inBar m bar e p hbar hp hlt
      have hin2 : ∀ x ∈ es,
          evTime x -
            ({ Time := bar.Time, Open := bar.Open, High := max bar.High p,
               Low := min bar.Low p, Close := p,
               Vol := bar.Vol + evVol m.contractID e } : HistoryBar).Time
            < (step m e).1.barPeriod := by
        intro x hx
        rw [h2]
        exact hin x (List.mem_cons_of_mem e hx)
      obtain ⟨ih1, ih2, ih3, ih4⟩ :=
        ih (step m e).1
          { Time := bar.Time, Open := bar.Open, High := max bar.High p,
            Low := min bar.Low p, Close := p,
            Vol := bar.Vol + evVol m.contractID e }
          h4 hin2
      rw [h2] at ih2
      rw [h3] at ih3
      rw [h3] at ih4
      rw [hrun]
      refine ⟨by simp [h1, ih1], ih2, ih3, ?_⟩
      rw [ih4]
      simp [List.filterMap_cons, hp, add_assoc]

/-! ## Claim theorems: OHLC and volume over one bar -/

/-- C3: for a non-empty sequence of well-formed quotes for the
aggregator's instrument whose arrival times stay within the period of the
bar opened by the first quote, the resulting (still open, never emitted)
bar has open = the first mid-price, close = the last mid-price, high =
the maximum of all mid-prices, and low = the minimum of all
mid-prices. -/
theorem C3_quote_ohlc (m : MarketDataManager) (t1 : Int) (b1 a1 : ℚ)
    (rest : List (Int × ℚ × ℚ))
    (hfresh : m.currentBar = none)
    (hin : ∀ r ∈ rest, r.1 - timeTruncate t1 m.barPeriod < m.barPeriod) :
    (runEvents m (quoteEvents m.contractID ((t1, b1, a1) :: rest))).2 = [] ∧
    ∃ bar, (runEvents m (quoteEvents m.contractID ((t1, b1, a1) :: rest))).1.currentBar
        = some bar ∧
      bar.Open = midPrice (t1, b1, a1) ∧
      bar.Close = (((t1, b1, a1) :: rest).map midPrice).getLastD 0 ∧
      bar.High ∈ ((t1, b1, a1) :: rest).map midPrice ∧
      (∀ q ∈ ((t1, b1, a1) :: rest).map midPrice, q ≤ bar.High) ∧
      bar.Low ∈ ((t1, b1, a1) :: rest).map midPrice ∧
      (∀ q ∈ ((t1, b1, a1) :: rest).map midPrice, bar.Low ≤ q) := by
  have hqe : quoteEvents m.contractID ((t1, b1, a1) :: rest)
      = mkQuote m.contractID b1 a1 t1
        :: rest.map (fun r => mkQuote m.contractID r.2.1 r.2.2 r.1) := rfl
  rw [hqe]
  obtain ⟨o1, o2, o3, o4⟩ :=
    step_open m (mkQuote m.contractID b1 a1 t1) ((b1 + a1) / 2) hfresh
      (evPrice_mkQuote m.contractID b1 a1 t1)
  have hT : evTime (mkQuote m.contractID b1 a1 t1) = t1 := rfl
  rw [hT] at o4
  have hin2 : ∀ x ∈ rest.map (fun r => mkQuote m.contractID r.2.1 r.2.2 r.1),
      evTime x -
        ({ Time := timeTruncate t1 m.barPeriod, Open := (b1 + a1) / 2,
           High := (b1 + a1) / 2, Low := (b1 + a1) / 2, Close := (b1 + a1) / 2,
           Vol := 0 } : HistoryBar).Time
        < (step m (mkQuote m.contractID b1 a1 t1)).1.barPeriod := by
    intro x hx
    rw [o2]
    obtain ⟨r, hr, hxr⟩ := List.mem_map.mp hx
    rw [← hxr]
    exact hin r hr
  obtain ⟨r1, r2, r3, r4⟩ :=
    runEvents_inBar (rest.map (fun r => mkQuote m.contractID r.2.1 r.2.2 r.1))
      (step m (mkQuote m.contractID b1 a1 t1)).1
      { Time := timeTruncate t1 m.barPeriod, Open := (b1 + a1) / 2,
        High := (b1 + a1) / 2, Low := (b1 + a1) / 2, Close := (b1 + a1) / 2,
        Vol := 0 }
      o4 hin2
  rw [o3] at r4
  have hfm : (rest.map (fun r => mkQuote m.contractID r.2.1 r.2.2 r.1)).filterMap
      (evPrice m.contractID) = rest.map midPrice := by
    rw [List.filterMap_map]
    have hcomp : (evPrice m.contractID ∘ fun r : Int × ℚ × ℚ =>
        mkQuote m.contractID r.2.1 r.2.2 r.1) = fun r => some (midPrice r) := by
      funext r
      exact evPrice_mkQuote m.contractID r.2.1 r.2.2 r.1
    rw [hcomp]
    exact filterMap_some_comp midPrice rest
  rw [hfm] at r4
  have hrun : runEvents m (mkQuote m.contractID b1 a1 t1
        :: rest.map (fun r => mkQuote m.contractID r.2.1 r.2.2 r.1))
      = ((runEvents (step m (mkQuote m.contractID b1 a1 t1)).1
            (rest.map (fun r => mkQuote m.contractID r.2.1 r.2.2 r.1))).1,
         (step m (mkQuote m.contractID b1 a1 t1)).2
           ++ (runEvents (step m (mkQuote m.contractID b1 a1 t1)).1
                (rest.map (fun r => mkQuote m.contractID r.2.1 r.2.2 r.1))).2) := rfl
  rw [hrun]
  refine ⟨by simp [o1, r1], ⟨_, r4, rfl, ?_, ?_, ?_, ?_, ?_⟩⟩
  · exact foldl_replace_eq_getLastD ((b1 + a1) / 2) (rest.map midPrice)
  · exact foldl_max_mem ((b1 + a1) / 2) (rest.map midPrice)
  · intro q hq
    exact le_foldl_max ((b1 + a1) / 2) (rest.map midPrice) q hq
  · exact foldl_min_mem ((b1 + a1) / 2) (rest.map midPrice)
  · intro q hq
    exact foldl_min_le ((b1 + a1) / 2) (rest.map midPrice) q hq

/-- C3 witness: two quotes, (bid 100, ask 101) at time 5 then
(bid 98, ask 99) at time 30, both within the 60-unit period starting
at 0. -/
theorem C3_quote_ohlc_witness :
    (runEvents (NewMarketDataManager "X" 1)
        (quoteEvents (NewMarketDataManager "X" 1).contractID
          ((5, 100, 101) :: [(30, 98, 99)]))).2 = [] ∧
    ∃ bar, (runEvents (NewMarketDataManager "X" 1)
        (quoteEvents (NewMarketDataManager "X" 1).contractID
          ((5, 100, 101) :: [(30, 98, 99)]))).1.currentBar = some bar ∧
      bar.Open = midPrice (5, 100, 101) ∧
      bar.Close = (((5, 100, 101) :: [(30, 98, 99)]).map midPrice).getLastD 0 ∧
      bar.High ∈ ((5, 100, 101) :: [(30, 98, 99)]).map midPrice ∧
      (∀ q ∈ ((5, 100, 101) :: [(30, 98, 99)]).map midPrice, q ≤ bar.High) ∧
      bar.Low ∈ ((5, 100, 101) :: [(30, 98, 99)]).map midPrice ∧
      (∀ q ∈ ((5, 100, 101) :: [(30, 98, 99)]).map midPrice, bar.Low ≤ q) :=
  C3_quote_ohlc (NewMarketDataManager "X" 1) 5 100 101 [(30, 98, 99)] rfl (by decide)

/-- C2 counterexample: the claim says a trade tick that opens a bar
contributes its size to the bar's volume, but a single trade of size 5 on
a fresh aggregator opens the bar with volume 0 (while the truncated size
is 5, not 0): `initializeNewBar` always sets `Vol` to 0 and `OnTrade`
returns without adding the opening trade's size. -/
theorem C2_counterexample_opening_trade :
    (OnTrade (NewMarketDataManager "X" 1) "X"
        [(priceKey, JsonVal.num 100), (sizeKey, JsonVal.num 5)] 0).1.currentBar
      = some { Time := 0, Open := 100, High := 100, Low := 100, Close := 100, Vol := 0 } ∧
    ratTrunc 5 = 5 ∧ (0 : Int) ≠ 5 :=
  ⟨by decide, by decide, by decide⟩

/-- C2 (amended): for a sequence of ticks aggregated into one bar (the
first tick opens the bar, the rest arrive within its period), the bar's
volume equals the sum of the truncated sizes of the trade ticks applied
to the bar as in-bar updates; quote ticks contribute zero, and the tick
that opens the bar — even a trade — contributes zero: the opened bar
starts at volume 0. -/
theorem C2_amended_volume (m : MarketDataManager) (e1 : TickEvent)
    (rest : List TickEvent) (p1 : ℚ)
    (hfresh : m.currentBar = none)
    (hp1 : evPrice m.contractID e1 = some p1)
    (hin : ∀ e ∈ rest,
      evTime e - timeTruncate (evTime e1) m.barPeriod < m.barPeriod) :
    (runEvents m (e1 :: rest)).2 = [] ∧
    ∃ bar, (runEvents m (e1 :: rest)).1.currentBar = some bar ∧
      bar.Vol = (rest.map (evVol m.contractID)).sum := by
  obtain ⟨o1, o2, o3, o4⟩ := step_open m e1 p1 hfresh hp1
  have hin2 : ∀ x ∈ rest,
      evTime x -
        ({ Time := timeTruncate (evTime e1) m.barPeriod, Open := p1,
           High := p1, Low := p1, Close := p1, Vol := 0 } : HistoryBar).Time
        < (step m e1).1.barPeriod := by
    intro x hx
    rw [o2]
    exact hin x hx
  obtain ⟨r1, r2, r3, r4⟩ :=
    runEvents_inBar rest (step m e1).1
      { Time := timeTruncate (evTime e1) m.barPeriod, Open := p1,
        High := p1, Low := p1, Close := p1, Vol := 0 }
      o4 hin2
  rw [o3] at r4
  have hrun : runEvents m (e1 :: rest)
      = ((runEvents (step m e1).1 rest).1,
         (step m e1).2 ++ (runEvents (step m e1).1 rest).2) := rfl
  rw [hrun]
  refine ⟨by simp [o1, r1], ⟨_, r4, ?_⟩⟩
  exact zero_add _

/-- C2 (amended) witness: an opening trade of size 5 followed by an
in-period trade of size 3 and a quote; the bar's volume is the
contribution sum 3 + 0 = 3, not 5 + 3. -/
theorem C2_amended_witness :
    (runEvents (NewMarketDataManager "X" 1)
        (mkTrade "X" 100 5 0 :: [mkTrade "X" 101 3 30, mkQuote "X" 100 102 40])).2 = [] ∧
    ∃ bar, (runEvents (NewMarketDataManager "X" 1)
        (mkTrade "X" 100 5 0 :: [mkTrade "X" 101 3 30, mkQuote "X" 100 102 40])).1.currentBar
        = some bar ∧
      bar.Vol = ([mkTrade "X" 101 3 30, mkQuote "X" 100 102 40].map
        (evVol (NewMarketDataManager "X" 1).contractID)).sum :=
  C2_amended_volume (NewMarketDataManager "X" 1) (mkTrade "X" 100 5 0)
    [mkTrade "X" 101 3 30, mkQuote "X" 100 102 40] 100 rfl rfl (by decide)

/-! ## Lemmas about the connection manager -/

theorem insertSub_of_mem {id : String} {subs : List String} (h : id ∈ subs) :
    insertSub id subs = subs := by
  simp [insertSub, h]

theorem Subscribe_state_of_mem (c : SignalRClient) (env : SendEnv) {id : String}
    (h : id ∈ c.subscriptions) : (Subscribe c env id).1 = c := by
  obtain ⟨subs, conn, rc⟩ := c
  unfold Subscribe
  cases conn with
  | false => rfl
  | true =>
    cases hq : env subQuotesMethod id with
    | some e => rfl
    | none =>
      cases ht : env subTradesMethod id with
      | some e => rfl
      | none =>
        cases hd : env subDepthMethod id with
        | some e => rfl
        | none => simp [insertSub_of_mem h]

theorem unsubscribe_isConnected (c : SignalRClient) (env : SendEnv) (id : String) :
    (unsubscribe c env id).1.isConnected = c.isConnected := by
  obtain ⟨subs, conn, rc⟩ := c
  unfold unsubscribe
  cases conn with
  | false => rfl
  | true =>
    cases hq : env unsQuotesMethod id with
    | some e => rfl
    | none =>
      cases ht : env unsTradesMethod id with
      | some e => rfl
      | none =>
        cases hd : env unsDepthMethod id with
        | some e => rfl
        | none => rfl

theorem unsubscribe_mem_iff (c : SignalRClient) (env : SendEnv) (id x : String) :
    x ∈ (unsubscribe c env id).1.subscriptions ↔
      x ∈ c.subscriptions ∧ ¬(c.isConnected = true ∧ unsEnvOK env id ∧ x = id) := by
  obtain ⟨subs, conn, rc⟩ := c
  unfold unsubscribe unsEnvOK
  cases conn with
  | false => simp
  | true =>
    cases hq : env unsQuotesMethod id with
    | some e => simp [hq]
    | none =>
      cases ht : env unsTradesMethod id with
      | some e => simp [hq, ht]
      | none =>
        cases hd : env unsDepthMethod id with
        | some e => simp [hq, ht, hd]
        | none => simp [hq, ht, hd, deleteSub, List.mem_filter]

theorem stopFold_isConnected (env : SendEnv) :
    ∀ (l : List String) (s : SignalRClient),
      (l.foldl (fun acc id => (unsubscribe acc env id).1) s).isConnected = s.isConnected := by
  intro l
  induction l with
  | nil => intro s; rfl
  | cons a l ih =>
    intro s
    have h := ih (unsubscribe s env a).1
    simpa [unsubscribe_isConnected] using h

theorem stopFold_mem (env : SendEnv) :
    ∀ (l : List String) (s : SignalRClient) (x : String),
      (x ∈ (l.foldl (fun acc id => (unsubscribe acc env id).1) s).subscriptions ↔
        x ∈ s.subscriptions ∧ ¬(s.isConnected = true ∧ unsEnvOK env x ∧ x ∈ l)) := by
  intro l
  induction l with
  | nil => intro s x; simp
  | cons a l ih =>
    intro s x
    rw [List.foldl_cons]
    rw [ih (unsubscribe s env a).1 x]
    rw [unsubscribe_mem_iff, unsubscribe_isConnected]
    constructor
    · rintro ⟨⟨hx, hna⟩, hnl⟩
      refine ⟨hx, ?_⟩
      rintro ⟨hconn, hok, hmem⟩
      rcases List.mem_cons.mp hmem with hxa | hxl
      · exact hna ⟨hconn, by rw [hxa] at hok ⊢; exact ⟨hok, rfl⟩⟩
      · exact hnl ⟨hconn, hok, hxl⟩
    · rintro ⟨hx, hn⟩
      refine ⟨⟨hx, ?_⟩, ?_⟩
      · rintro ⟨hconn, hok, hxa⟩
        exact hn ⟨hconn, by rw [hxa]; exact hok, by rw [hxa]; exact List.mem_cons_self a l⟩
      · rintro ⟨hconn, hok, hxl⟩
        exact hn ⟨hconn, hok, List.mem_cons_of_mem a hxl⟩

theorem onConnectedFold (env : SendEnv) :
    ∀ (l : List String) (s : SignalRClient) (tr : List (String × Option String)),
      (∀ id ∈ l, id ∈ s.subscriptions) →
      (l.foldl
        (fun acc id =>
          let r := Subscribe acc.1 env id
          (r.1, acc.2 ++ [(id, r.2)]))
        (s, tr)) =
      (s, tr ++ l.map (fun id => (id, (Subscribe s env id).2))) := by
  intro l
  induction l with
  | nil => intro s tr h; simp
  | cons a l ih =>
    intro s tr h
    rw [List.foldl_cons]
    have ha : (Subscribe s env a).1 = s :=
      Subscribe_state_of_mem s env (h a (List.mem_cons_self a l))
    simp only [ha]
    rw [ih s (tr ++ [(a, (Subscribe s env a).2)])
      (fun id hid => h id (List.mem_cons_of_mem a hid))]
    simp

/-! ## Claim theorems for the connection manager -/

/-- C5: `Subscribe` while not connected returns the "not connected" error
with no side effects; when connected it performs the three registrations
in order (the error identifies the first failing one), fails when any of
them fails, and adds the instrument to the subscription set iff all three
succeed, leaving the state unchanged on any failure. -/
theorem C5_subscribe_spec (c : SignalRClient) (env : SendEnv) (id : String) :
    (c.isConnected = false → Subscribe c env id = (c, some notConnectedMsg)) ∧
    (c.isConnected = true →
      (((Subscribe c env id).2 = none) ↔ subEnvOK env id) ∧
      (subEnvOK env id →
        Subscribe c env id = ({ c with subscriptions := insertSub id c.subscriptions }, none)) ∧
      (¬ subEnvOK env id → (Subscribe c env id).1 = c) ∧
      (∀ e, env subQuotesMethod id = some e →
        Subscribe c env id = (c, some (subQuotesFailMsg ++ e))) ∧
      (∀ e, env subQuotesMethod id = none → env subTradesMethod id = some e →
        Subscribe c env id = (c, some (subTradesFailMsg ++ e))) ∧
      (∀ e, env subQuotesMethod id = none → env subTradesMethod id = none →
        env subDepthMethod id = some e →
        Subscribe c env id = (c, some (subDepthFailMsg ++ e)))) := by
  obtain ⟨subs, conn, rc⟩ := c
  constructor
  · intro h
    cases h
    rfl
  · intro h
    cases h
    unfold Subscribe subEnvOK
    cases hq : env subQuotesMethod id with
    | some e => simp [hq]
    | none =>
      cases ht : env subTradesMethod id with
      | some e => simp [hq, ht]
      | none =>
        cases hd : env subDepthMethod id with
        | some e => simp [hq, ht, hd]
        | none => simp [hq, ht, hd]

/-- C5 witness: with no subscriptions, a not-connected `Subscribe` fails
with the precondition error and changes nothing; a connected `Subscribe`
with an all-success network adds the instrument. -/
theorem C5_subscribe_witness :
    Subscribe { subscriptions := [], isConnected := false, reconnectCount := 0 }
        (fun _ _ => none) "A"
      = ({ subscriptions := [], isConnected := false, reconnectCount := 0 },
         some notConnectedMsg) ∧
    Subscribe { subscriptions := [], isConnected := true, reconnectCount := 0 }
        (fun _ _ => none) "A"
      = ({ subscriptions := ["A"], isConnected := true, reconnectCount := 0 }, none) := by
  constructor
  · exact (C5_subscribe_spec _ _ _).1 rfl
  · have h :=
      ((C5_subscribe_spec { subscriptions := [], isConnected := true, reconnectCount := 0 }
        (fun _ _ => none) "A").2 rfl).2.1 ⟨rfl, rfl, rfl⟩
    rw [h]
    decide

/-- C8: on entering the connected state, the manager issues a fresh
`Subscribe` for every instrument currently in the subscription set, in
order, each with the outcome the (re)subscription attempt produced for
that instrument alone; failures neither stop the loop nor remove the
failed instrument — the subscription set is unchanged. -/
theorem C8_onConnected_resubscribes (c : SignalRClient) (env : SendEnv) :
    (OnConnected c env).1.subscriptions = c.subscriptions ∧
    (OnConnected c env).1.isConnected = true ∧
    (OnConnected c env).2.map Prod.fst = c.subscriptions ∧
    (OnConnected c env).2 =
      c.subscriptions.map
        (fun id => (id, (Subscribe { c with isConnected := true } env id).2)) := by
  have hOC : OnConnected c env
      = ({ c with isConnected := true },
         [] ++ c.subscriptions.map
           (fun id => (id, (Subscribe { c with isConnected := true } env id).2))) :=
    onConnectedFold env c.subscriptions { c with isConnected := true } []
      (fun id hid => hid)
  rw [hOC]
  refine ⟨rfl, rfl, ?_, by simp⟩
  rw [List.nil_append, List.map_map]
  have hcomp : (Prod.fst ∘ fun id : String =>
      (id, (Subscribe { c with isConnected := true } env id).2)) = fun id : String => id := by
    funext y
    rfl
  rw [hcomp]
  simp

/-- C1 counterexample: the claim says a failed unregistration still
clears the local intent, but with a connected client subscribed to `A`
and a network failing the quotes unregistration, `Unsubscribe A` returns
an error and `A` is still in the subscription set. -/
theorem C1_counterexample_unsubscribe :
    ("A" ∈ (Unsubscribe { subscriptions := ["A"], isConnected := true, reconnectCount := 0 }
        (fun method _ => if method = unsQuotesMethod then some method else none)
        "A").1.subscriptions) ∧
    (Unsubscribe { subscriptions := ["A"], isConnected := true, reconnectCount := 0 }
        (fun method _ => if method = unsQuotesMethod then some method else none)
        "A").2 ≠ none := by
  decide

/-- C1 (amended): `Unsubscribe` succeeds iff the client is connected and
all three unregistration calls succeed; only then is the instrument
removed from the subscription set — on any failure (including the
not-connected case) the state is unchanged and an error is returned.
`Stop` removes exactly those tracked entries whose full teardown
succeeds: an entry survives `Stop` iff its teardown failed or the client
was not connected. -/
theorem C1_amended_teardown (c : SignalRClient) (env : SendEnv) (id x : String) :
    ((Unsubscribe c env id).2 = none ↔ (c.isConnected = true ∧ unsEnvOK env id)) ∧
    ((Unsubscribe c env id).2 = none →
      (Unsubscribe c env id).1 =
        { c with subscriptions := deleteSub id c.subscriptions }) ∧
    ((Unsubscribe c env id).2 ≠ none → (Unsubscribe c env id).1 = c) ∧
    ((Stop c env).isConnected = false) ∧
    (x ∈ (Stop c env).subscriptions ↔
      x ∈ c.subscriptions ∧ ¬(c.isConnected = true ∧ unsEnvOK env x)) := by
  have hstop : (Stop c env).subscriptions
      = (c.subscriptions.foldl (fun acc id => (unsubscribe acc env id).1) c).subscriptions :=
    rfl
  refine ⟨?_, ?_, ?_, rfl, ?_⟩
  · obtain ⟨subs, conn, rc⟩ := c
    unfold Unsubscribe unsubscribe unsEnvOK
    cases conn with
    | false => simp
    | true =>
      cases hq : env unsQuotesMethod id with
      | some e => simp [hq]
      | none =>
        cases ht : env unsTradesMethod id with
        | some e => simp [hq, ht]
        | none =>
          cases hd : env unsDepthMethod id with
          | some e => simp [hq, ht, hd]
          | none => simp [hq, ht, hd]
  · obtain ⟨subs, conn, rc⟩ := c
    unfold Unsubscribe unsubscribe
    cases conn with
    | false => simp
    | true =>
      cases hq : env unsQuotesMethod id with
      | some e => simp
      | none =>
        cases ht : env unsTradesMethod id with
        | some e => simp
        | none =>
          cases hd : env unsDepthMethod id with
          | some e => simp
          | none => intro _; rfl
  · obtain ⟨subs, conn, rc⟩ := c
    unfold Unsubscribe unsubscribe
    cases conn with
    | false => intro _; rfl
    | true =>
      cases hq : env unsQuotesMethod id with
      | some e => intro _; rfl
      | none =>
        cases ht : env unsTradesMethod id with
        | some e => intro _; rfl
        | none =>
          cases hd : env unsDepthMethod id with
          | some e => intro _; rfl
          | none => simp
  · rw [hstop, stopFold_mem env c.subscriptions c x]
    constructor
    · rintro ⟨hx, hn⟩
      exact ⟨hx, fun hc => hn ⟨hc.1, hc.2, hx⟩⟩
    · rintro ⟨hx, hn⟩
      exact ⟨hx, fun hc => hn ⟨hc.1, hc.2.1⟩⟩

/-- C1 (amended) witness: a fully successful `Unsubscribe A` removes
exactly `A`; after a `Stop` issued while disconnected, `B` is still
tracked. -/
theorem C1_amended_witness :
    (Unsubscribe { subscriptions := ["A", "B"], isConnected := true, reconnectCount := 0 }
        (fun _ _ => none) "A").1
      = { subscriptions := ["B"], isConnected := true, reconnectCount := 0 } ∧
    ("B" ∈ (Stop { subscriptions := ["A", "B"], isConnected := false, reconnectCount := 0 }
        (fun _ _ => none)).subscriptions) := by
  constructor
  · have h :=
      (C1_amended_teardown { subscriptions := ["A", "B"], isConnected := true, reconnectCount := 0 }
        (fun _ _ => none) "A" "A").2.1 (by decide)
    rw [h]
    decide
  · have h :=
      (C1_amended_teardown { subscriptions := ["A", "B"], isConnected := false, reconnectCount := 0 }
        (fun _ _ => none) "A" "B").2.2.2.2
    exact h.mpr ⟨by decide, fun hc => absurd hc.1 (by decide)⟩

end ProjectX
